import Mathlib

/-!
Verification development for the simulated-memory C interpreter
(`c_interpreter.py`): a shallow embedding of the `Memory` class and of the
`Interpreter` evaluator, with theorems settling the specification claims.

Conventions of the embedding:
* Python's arbitrary-precision `int` is `ℤ`; a byte stored in the heap is `ℕ`.
* The Python dict `self.heap` is a function `ℤ → Option ℕ`; `none` means the
  address was never written (`address not in self.heap`).
* A raised Python exception is `Except.error msg`; normal completion is
  `Except.ok`.
* Python's `>>` on ints is floor division (`Int.fdiv`), and `& 0xFF` is the
  nonnegative remainder (`Int.emod`).
-/

set_option maxHeartbeats 1000000

deriving instance DecidableEq for Except




/-- `INT_SIZE` from the source: size in bytes of an `int` and of a pointer. -/
def INT_SIZE : ℕ := 4

/-- `CHAR_SIZE` from the source: size in bytes of a `char`. -/
def CHAR_SIZE : ℕ := 1

/-- The `Memory` class: `heap` is the byte store (a Python dict from address
to byte value; `none` = never written), `next_free_address` is the bump
cursor, which `Memory.__init__` starts at 1000. -/
structure Memory where
  heap : ℤ → Option ℕ
  next_free_address : ℤ

/-- The fresh memory built by `Memory.__init__`: empty heap, cursor at 1000. -/
def initMemory : Memory := ⟨fun _ => none, 1000⟩

/-- One Python dict assignment `heap[a] = b`. -/
def heapStore (h : ℤ → Option ℕ) (a : ℤ) (b : ℕ) : ℤ → Option ℕ :=
  fun x => if x = a then some b else h x

/-- Python `self.heap.get(a, 0)`: the stored byte, or 0 if never written. -/
def heapGetD (m : Memory) (a : ℤ) : ℕ := (m.heap a).getD 0

/-- `Memory.allocate`: bump-allocate `size_in_bytes` zero-filled bytes at the
cursor and advance the cursor.  Returns the address and the new memory. -/
def allocate (m : Memory) (size_in_bytes : ℕ) : ℤ × Memory :=
  let addr := m.next_free_address
  (addr,
    { heap := (List.range size_in_bytes).foldl
        (fun h i => heapStore h (addr + ((i : ℕ) : ℤ)) 0) m.heap
      next_free_address := m.next_free_address + (size_in_bytes : ℤ) })

/-- Byte `i` of the little-endian encoding written by `Memory.set_int_value`:
Python `(value >> (i * 8)) & 0xFF`.  `>>` on a Python int is floor division
by the power of two and `& 0xFF` is the nonnegative remainder, so negative
values encode as their two's-complement bytes. -/
def intByte (value : ℤ) (i : ℕ) : ℕ :=
  ((value.fdiv (2 ^ (i * 8))).emod 256).toNat

/-- The loop of `Memory.set_int_value`: `for i in range(INT_SIZE):
heap[address + i] = (value >> (i * 8)) & 0xFF`. -/
def writeIntBytes (h : ℤ → Option ℕ) (address : ℤ) (value : ℤ) : ℤ → Option ℕ :=
  (List.range INT_SIZE).foldl
    (fun hh i => heapStore hh (address + ((i : ℕ) : ℤ)) (intByte value i)) h

/-- Message of the exception raised on a write below 1000. -/
def invalidWriteMsg (address : ℤ) : String :=
  "無効なアドレス (" ++ toString address ++ ") への書き込み試行"

/-- Message of the exception raised by `get_int_value` on a missing address. -/
def invalidAccessMsg (address : ℤ) : String :=
  "無効なアドレス (" ++ toString address ++ ") または未初期化データへのアクセス"

/-- Message of the `TypeError` Python raises when `None` (a void call's
result) reaches the byte-encoding loop of `set_int_value`. -/
def typeErrorMsg : String := "TypeError: unsupported operand type"

/-- `Memory.set_int_value(address, value)`.  The value slot is `Option ℤ`
because the interpreter can pass `None` (the result of a void function call)
here, which Python rejects with a `TypeError` inside the loop; the address
check comes first, exactly as in the source. -/
def set_int_value (m : Memory) (address : ℤ) (value : Option ℤ) :
    Except String Memory :=
  if address < 1000 then .error (invalidWriteMsg address)
  else
    match value with
    | none => .error typeErrorMsg
    | some v => .ok { m with heap := writeIntBytes m.heap address v }

/-- The accumulation loop of `Memory.get_int_value`:
`value |= heap.get(address + i, 0) << (i * 8)` for `i in range(INT_SIZE)`. -/
def readIntBytes (m : Memory) (address : ℤ) : ℕ :=
  (List.range INT_SIZE).foldl
    (fun v i => v ||| ((heapGetD m (address + ((i : ℕ) : ℤ))) <<< (i * 8))) 0

/-- `Memory.get_int_value(address)`: raises when `address not in self.heap`,
otherwise assembles the 4 little-endian bytes, any *later* missing byte
defaulting to 0 via `heap.get(address + i, 0)`. -/
def get_int_value (m : Memory) (address : ℤ) : Except String ℕ :=
  if (m.heap address).isNone then .error (invalidAccessMsg address)
  else .ok (readIntBytes m address)

/-- Message of the `ValueError` for a byte outside `[0, 255]`. -/
def byteRangeMsg : String := "バイト値は0-255の範囲である必要があります。"

/-- `Memory.set_byte_value(address, byte_value)`.  The byte is a `ℕ` (every
byte the interpreter produces is a nonnegative `ord` result), so only the
upper bound of the source's `0 <= byte_value <= 255` check is meaningful. -/
def set_byte_value (m : Memory) (address : ℤ) (byte_value : ℕ) :
    Except String Memory :=
  if address < 1000 then .error (invalidWriteMsg address)
  else if ¬ byte_value ≤ 255 then .error byteRangeMsg
  else .ok { m with heap := heapStore m.heap address byte_value }

/-- `Memory.get_byte_value(address)`: 0 when the address was never written. -/
def get_byte_value (m : Memory) (address : ℤ) : ℕ := heapGetD m address

/-! ### Claim C2 -/

/-- The concrete memory for the C2 counterexample: exactly one byte, at
address 1000, was ever written. -/
def memC2 : Memory := ⟨fun x => if x = 1000 then some 5 else none, 1001⟩

/-! ### Abstract syntax trees (section 3 of the source)

The lexer and parser are not needed by any claim; programs are given as
ASTs.  `Expr` covers the expression node classes, `Stmt` the statement node
classes, and `TopLevel` the nodes a parsed program list can contain. -/

/-- Binary operator tokens reaching `visit_BinaryOpNode`. -/
inductive BinOp where
  | plus | minus | mul | div | eq | neq | lt | gt
deriving DecidableEq
/-- Unary operator tokens reaching `visit_UnaryOpNode`: address-of `&`
(`TT_AMPERSAND`) and dereference `*` (`TT_ASTERISK`). -/
inductive UnOp where
  | amp | star
deriving DecidableEq
/-- Expression AST nodes: `NumberNode`, `StringNode`, `VarAccessNode`,
`BinaryOpNode`, `UnaryOpNode`, `FunctionCallNode`. -/
inductive Expr where
  | num (value : ℤ)
  | str (value : String)
  | var (name : String)
  | binop (left : Expr) (op : BinOp) (right : Expr)
  | unop (op : UnOp) (operand : Expr)
  | call (name : String) (args : List Expr)

/-- Statement AST nodes: `VarDeclNode`, `AssignmentNode`, `ReturnNode`,
`PrintNode`, `DebugNode`, `IfNode`, and a `FunctionCallNode` used as a
statement.  An assignment target is an arbitrary expression node, as in the
source. -/
inductive Stmt where
  | varDecl (var_type name : String)
  | assign (target : Expr) (expr : Expr)
  | ret (expr : Expr)
  | print (expr : Expr)
  | debug
  | ifStmt (condition : Expr) (true_body : List Stmt)
      (false_body : Option (List Stmt))
  | callStmt (name : String) (args : List Expr)

/-- `FunctionDefNode`: parameters are the parameter-name tokens only (the
parser consumes and discards parameter types and stars). -/
structure FuncDef where
  return_type : String
  name : String
  params : List String
  body : List Stmt

/-- Top-level program nodes: the parser only ever produces variable
declarations and function definitions at top level (`Parser.parse`), so the
`AssignmentNode` branch of `_static_analysis_and_allocation` is
unreachable and is not modelled. -/
inductive TopLevel where
  | varDecl (var_type name : String)
  | funcDef (fd : FuncDef)

/-- The `Symbol` class: a declared type string paired with the variable's
address.  (Named `VarSymbol` here because `Symbol` is taken by Mathlib.) -/
structure VarSymbol where
  type : String
  address : ℤ
deriving DecidableEq
/-- The mutable fields of the `Interpreter` object.  Python dicts are
association lists looked up by first match, with new bindings consed in
front (so a later binding for the same key shadows the earlier one, exactly
like dict assignment).  The top of `call_stack` is the head of the list.
`output` collects the strings passed to the output callback, in order. -/
structure State where
  memory : Memory
  functions : List (String × FuncDef)
  global_symtable : List (String × VarSymbol)
  string_literals : List (String × ℤ)
  call_stack : List (List (String × VarSymbol))
  output : List String

/-- Python dict lookup on an association list (first match wins). -/
def lookupA {α : Type} : List (String × α) → String → Option α
  | [], _ => none
  | (k, v) :: rest, key => if k = key then some v else lookupA rest key

/-- The state built by `Interpreter.__init__`. -/
def initState : State := ⟨initMemory, [], [], [], [], []⟩

/-- `Interpreter.log`: the output callback receives `str(message) + "\n"`. -/
def logMsg (s : State) (message : String) : State :=
  { s with output := s.output ++ [message ++ "\n"] }

/-- String suffix test over the character list; the source uses Python's
`str.endswith`. -/
def strEndsWith (s suffix : String) : Bool := suffix.data.isSuffixOf s.data

/-- String prefix test over the character list; the source uses Python's
`str.startswith`. -/
def strStartsWith (s pre : String) : Bool := pre.data.isPrefixOf s.data

/-- `Interpreter._get_size_by_type`: pointers first, then the base types. -/
def getSizeByType (var_type : String) : Except String ℕ :=
  if strEndsWith var_type "*" then .ok INT_SIZE
  else if var_type = "int" then .ok INT_SIZE
  else if var_type = "char" then .ok CHAR_SIZE
  else if var_type = "void" then .ok 0
  else .error ("不明な型サイズ: " ++ var_type)

/-- Message of the `IndexError` Python raises when a local declaration runs
with an empty call stack (`self.call_stack[-1]` on an empty list). -/
def indexErrorMsg : String := "IndexError: list index out of range"

/-- `Interpreter._declare_variable`, also returning the `Symbol` it binds:
allocate by declared size, bind the symbol globally or in the innermost
frame, then zero the slot with a 4-byte `set_int_value` write (regardless of
the declared size). -/
def declareVariableSym (s : State) (name var_type : String)
    (is_global : Bool) : Except String (VarSymbol × State) :=
  match getSizeByType var_type with
  | .error e => .error e
  | .ok size =>
    let p := allocate s.memory size
    let sym : VarSymbol := ⟨var_type, p.1⟩
    match (if is_global then
        Except.ok { s with memory := p.2
                           global_symtable := (name, sym) :: s.global_symtable }
      else
        match s.call_stack with
        | [] => Except.error indexErrorMsg
        | fr :: rest => Except.ok { s with memory := p.2
                                           call_stack := ((name, sym) :: fr) :: rest }) with
    | .error e => .error e
    | .ok s1 =>
      match set_int_value s1.memory p.1 (some 0) with
      | .error e => .error e
      | .ok m2 => .ok (sym, { s1 with memory := m2 })

/-- `Interpreter._declare_variable` (which returns nothing in the source). -/
def declareVariable (s : State) (name var_type : String) (is_global : Bool) :
    Except String State :=
  (declareVariableSym s name var_type is_global).map Prod.snd

/-- The character-writing loop of `_store_string_literal`:
`set_byte_value(addr + i, ord(char))` for each character in order.  A
character with code point above 255 trips the byte-range `ValueError`. -/
def writeChars (m : Memory) (addr : ℤ) : List Char → Except String Memory
  | [] => .ok m
  | c :: cs =>
    match set_byte_value m addr c.toNat with
    | .error e => .error e
    | .ok m1 => writeChars m1 (addr + 1) cs

/-- `Interpreter._store_string_literal`: intern the literal, allocating
`len + 1` bytes (characters then one terminating zero byte) only on first
sight, and return its address. -/
def storeStringLiteral (s : State) (string_value : String) :
    Except String (ℤ × State) :=
  match lookupA s.string_literals string_value with
  | some addr => .ok (addr, s)
  | none =>
    let size := string_value.length + 1
    let p := allocate s.memory size
    match writeChars p.2 p.1 string_value.data with
    | .error e => .error e
    | .ok m2 =>
      match set_byte_value m2 (p.1 + (size : ℤ) - 1) 0 with
      | .error e => .error e
      | .ok m3 => .ok (p.1, { s with memory := m3
                                     string_literals := (string_value, p.1) :: s.string_literals })

/-! ### Claim C7: global declaration layout -/

/-- The global-declaration loop of `_static_analysis_and_allocation`
(each `VarDeclNode` child calls `_declare_variable(name, type, True)`),
instrumented to also return the bound symbols in declaration order.  Each
list entry is `(var_type, name)`. -/
def declareGlobals : State → List (String × String) →
    Except String (List VarSymbol × State)
  | s, [] => .ok ([], s)
  | s, (var_type, name) :: rest =>
    match declareVariableSym s name var_type true with
    | .error e => .error e
    | .ok (sym, s1) =>
      match declareGlobals s1 rest with
      | .error e => .error e
      | .ok (syms, s2) => .ok (sym :: syms, s2)

/-- Specification-side size table for the declarable value types of claim
C7 (`int` → 4, `char` → 1, any pointer → 4); its agreement with the
source's `_get_size_by_type` is proved in `getSizeByType_valid`. -/
def declSize (var_type : String) : ℕ :=
  if strEndsWith var_type "*" then 4
  else if var_type = "int" then 4
  else 1

/-- The declared types claim C7 ranges over. -/
def validGlobalType (t : String) : Prop :=
  t = "int" ∨ t = "char" ∨ strEndsWith t "*" = true

instance (t : String) : Decidable (validGlobalType t) := by
  unfold validGlobalType
  infer_instance

/-- The address assigned to each declaration in a bump-allocated sequence:
the base cursor plus the sizes of the previous declarations. -/
def addrLayout (base : ℤ) : List ℕ → List ℤ
  | [] => []
  | sz :: rest => base :: addrLayout (base + (sz : ℤ)) rest

/-! ### Claim C3, counterexample part -/

/-- The allocation-confinement property asserted by claim C3: every written
byte lies inside the bump-allocated region `[1000, next_free_address)` —
every allocation ever handed out is a subrange of that region, so a write
outside it is a write to memory never allocated to any symbol or literal. -/
def allocWithin (s : State) : Prop :=
  ∀ a : ℤ, (s.memory.heap a).isSome = true →
    1000 ≤ a ∧ a < s.memory.next_free_address

/-- The state after declaring one global `char c;` from a fresh interpreter
(the first thing `visit_ProgramNode` phase 1 does for such a program). -/
def c3State : State :=
  match declareVariable initState "c" "char" true with
  | .ok s => s
  | .error _ => initState

/-! ### The evaluator (`Interpreter.visit_*`)

The interpreted program can recurse without bound, so evaluation carries a
fuel counter that every recursive step decrements; running out of fuel is
the analogue of Python's `RecursionError` from host-stack exhaustion.  The
`ReturnSignal` exception is modelled by the `StmtOut.ret` result, which
statement-list execution propagates outward and `callFunction` catches —
and nothing else catches, exactly as in the source, where the only
`except ReturnSignal` that can ever fire is the one in `call_function`. -/

/-- Result of executing one statement: normal completion, or an in-flight
`ReturnSignal` carrying the returned value. -/
inductive StmtOut where
  | norm (s : State)
  | ret (value : Option ℤ) (s : State)

def recursionMsg : String := "RecursionError: maximum recursion depth exceeded"

def undefinedVarMsg (name : String) : String := "未定義変数: " ++ name

def undefinedFuncMsg (name : String) : String := "未定義関数: " ++ name

def arityMsg (name : String) : String :=
  "関数 '" ++ name ++ "' の引数の数が一致しません"

def ampOnlyVarMsg : String := "& 演算子は変数にのみ適用可能です。"

def lvalueMsg : String := "代入の左辺値が不正です。"

def zeroDivMsg : String := "ZeroDivisionError: division by zero"

def keyErrorMsg (t : String) : String := "KeyError: " ++ t

/-- Message of `get_int_value(None)`: `None not in heap` is true, so the
source raises its invalid-access error with `None` interpolated. -/
def invalidAccessNoneMsg : String :=
  "無効なアドレス (None) または未初期化データへのアクセス"

/-- Ideal semantics of the source's `int(left / right)`: the exact rational
quotient truncated toward zero.  The source routes this through IEEE-754
binary64 division, which agrees with exact truncation on small operands but
not in general; that divergence is recorded against claim C6, and no claim
relies on this definition's values. -/
def truncDiv (a b : ℤ) : ℤ := Int.tdiv a b

/-- `Interpreter._get_symbol`, lookup part: innermost frame first (only
when a call is active), then the global table. -/
def lookupSymbol (s : State) (name : String) : Option VarSymbol :=
  match s.call_stack with
  | fr :: _ =>
    match lookupA fr name with
    | some sym => some sym
    | none => lookupA s.global_symtable name
  | [] => lookupA s.global_symtable name

/-- `visit_BinaryOpNode`, operator dispatch on the two operand values.  A
`none` operand (a void call's result) is Python `None`: `==`/`!=` compare
it like any value, the arithmetic and ordering operators raise `TypeError`. -/
def applyBinOp (op : BinOp) (left right : Option ℤ) :
    Except String (Option ℤ) :=
  match op with
  | .plus =>
    match left, right with
    | some a, some b => .ok (some (a + b))
    | _, _ => .error typeErrorMsg
  | .minus =>
    match left, right with
    | some a, some b => .ok (some (a - b))
    | _, _ => .error typeErrorMsg
  | .mul =>
    match left, right with
    | some a, some b => .ok (some (a * b))
    | _, _ => .error typeErrorMsg
  | .div =>
    match left, right with
    | some a, some b =>
      if b = 0 then .error zeroDivMsg else .ok (some (truncDiv a b))
    | _, _ => .error typeErrorMsg
  | .eq => .ok (some (if left = right then 1 else 0))
  | .neq => .ok (some (if left = right then 0 else 1))
  | .lt =>
    match left, right with
    | some a, some b => .ok (some (if a < b then 1 else 0))
    | _, _ => .error typeErrorMsg
  | .gt =>
    match left, right with
    | some a, some b => .ok (some (if a > b then 1 else 0))
    | _, _ => .error typeErrorMsg

/-- The scanning loop of `_read_string_from_memory`: collect bytes until a
zero byte.  `get_byte_value` returns 0 for unwritten addresses, so on the
source's finite dict the loop always terminates; the fuel bounds the scan
in the model. -/
def readStringLoop (m : Memory) : ℕ → ℤ → List Char
  | 0, _ => []
  | fuel + 1, addr =>
    let b := get_byte_value m addr
    if b = 0 then []
    else Char.ofNat b :: readStringLoop m fuel (addr + 1)

/-- `Interpreter._read_string_from_memory`: an address below 1000 yields the
diagnostic text instead of a scan. -/
def readString (m : Memory) (address : ℤ) (fuel : ℕ) : String :=
  if address < 1000 then "Error: Invalid string address " ++ toString address
  else String.mk (readStringLoop m fuel address)

/-- The `is_string_output` computation of `visit_PrintNode`: a string
literal prints as a string, a variable prints as a string exactly when its
declared type starts with `char*`. -/
def printIsString (s : State) (e : Expr) : Except String Bool :=
  match e with
  | .str _ => .ok true
  | .var name =>
    match lookupSymbol s name with
    | some sym => .ok (strStartsWith sym.type "char*")
    | none => .error (undefinedVarMsg name)
  | _ => .ok false

/-- Python `str(value)` on the printed value: `None` for a void result. -/
def optValStr (v : Option ℤ) : String :=
  match v with
  | none => "None"
  | some n => toString n

/-- The parameter-binding loop of `call_function`: for each parameter (in
order) allocate 4 bytes, bind it as an `int` symbol in the new frame, and
store the evaluated argument.  `zip` semantics: stops at the shorter list
(the caller has already checked arity). -/
def bindParams : State → List (String × VarSymbol) → List String →
    List (Option ℤ) → Except String (List (String × VarSymbol) × State)
  | s, frame, [], _ => .ok (frame, s)
  | s, frame, _ :: _, [] => .ok (frame, s)
  | s, frame, p :: ps, a :: rest =>
    let q := allocate s.memory INT_SIZE
    match set_int_value q.2 q.1 a with
    | .error e => .error e
    | .ok m2 =>
      bindParams { s with memory := m2 } ((p, ⟨"int", q.1⟩) :: frame) ps rest

mutual

/-- `Interpreter.visit` on expression nodes. -/
def evalExpr : ℕ → State → Expr → Except String (Option ℤ × State)
  | 0, _, _ => .error recursionMsg
  | fuel + 1, s, e =>
    match e with
    | .num v => .ok (some v, s)
    | .str t =>
      match lookupA s.string_literals t with
      | some addr => .ok (some addr, s)
      | none => .error (keyErrorMsg t)
    | .var name =>
      match lookupSymbol s name with
      | none => .error (undefinedVarMsg name)
      | some sym =>
        match get_int_value s.memory sym.address with
        | .error e2 => .error e2
        | .ok n => .ok (some (n : ℤ), s)
    | .binop l op r =>
      match evalExpr fuel s l with
      | .error e2 => .error e2
      | .ok (lv, s1) =>
        match evalExpr fuel s1 r with
        | .error e2 => .error e2
        | .ok (rv, s2) =>
          match applyBinOp op lv rv with
          | .error e2 => .error e2
          | .ok v => .ok (v, s2)
    | .unop .amp operand =>
      match operand with
      | .var name =>
        match lookupSymbol s name with
        | none => .error (undefinedVarMsg name)
        | some sym => .ok (some sym.address, s)
      | _ => .error ampOnlyVarMsg
    | .unop .star operand =>
      match evalExpr fuel s operand with
      | .error e2 => .error e2
      | .ok (none, _) => .error invalidAccessNoneMsg
      | .ok (some addr, s1) =>
        match get_int_value s1.memory addr with
        | .error e2 => .error e2
        | .ok n => .ok (some (n : ℤ), s1)
    | .call name args =>
      match evalArgs fuel s args with
      | .error e2 => .error e2
      | .ok (vs, s1) => callFunction fuel s1 name vs

/-- `visit_FunctionCallNode`, argument part: evaluate arguments from left
to right, threading state. -/
def evalArgs : ℕ → State → List Expr → Except String (List (Option ℤ) × State)
  | 0, _, _ => .error recursionMsg
  | _ + 1, s, [] => .ok ([], s)
  | fuel + 1, s, e :: es =>
    match evalExpr fuel s e with
    | .error e2 => .error e2
    | .ok (v, s1) =>
      match evalArgs fuel s1 es with
      | .error e2 => .error e2
      | .ok (vs, s2) => .ok (v :: vs, s2)

/-- `Interpreter.call_function`: look the function up, check arity, bind
parameters, push the frame, run the body; a propagating `ReturnSignal` is
caught here, the frame popped and the value returned; a body that finishes
normally pops the frame and yields `None` for `void`, else `0`. -/
def callFunction : ℕ → State → String → List (Option ℤ) →
    Except String (Option ℤ × State)
  | 0, _, _, _ => .error recursionMsg
  | fuel + 1, s, name, arg_values =>
    match lookupA s.functions name with
    | none => .error (undefinedFuncMsg name)
    | some fd =>
      if arg_values.length ≠ fd.params.length then .error (arityMsg name)
      else
        match bindParams s [] fd.params arg_values with
        | .error e2 => .error e2
        | .ok (frame, s1) =>
          match execStmts fuel
              { s1 with call_stack := frame :: s1.call_stack } fd.body with
          | .error e2 => .error e2
          | .ok (.ret v s2) =>
            .ok (v, { s2 with call_stack := s2.call_stack.tail })
          | .ok (.norm s2) =>
            .ok (if fd.return_type = "void" then none else some 0,
              { s2 with call_stack := s2.call_stack.tail })

/-- `Interpreter.visit` on statement nodes. -/
def execStmt : ℕ → State → Stmt → Except String StmtOut
  | 0, _, _ => .error recursionMsg
  | fuel + 1, s, stmt =>
    match stmt with
    | .varDecl var_type name =>
      match declareVariableSym s name var_type false with
      | .error e2 => .error e2
      | .ok (_, s1) => .ok (.norm s1)
    | .assign target expr =>
      match evalExpr fuel s expr with
      | .error e2 => .error e2
      | .ok (r_value, s1) =>
        match target with
        | .var name =>
          match lookupSymbol s1 name with
          | none => .error (undefinedVarMsg name)
          | some sym =>
            match set_int_value s1.memory sym.address r_value with
            | .error e2 => .error e2
            | .ok m2 => .ok (.norm { s1 with memory := m2 })
        | .unop .star operand =>
          match evalExpr fuel s1 operand with
          | .error e2 => .error e2
          | .ok (none, _) => .error typeErrorMsg
          | .ok (some addr, s2) =>
            match set_int_value s2.memory addr r_value with
            | .error e2 => .error e2
            | .ok m2 => .ok (.norm { s2 with memory := m2 })
        | _ => .error lvalueMsg
    | .ret expr =>
      match evalExpr fuel s expr with
      | .error e2 => .error e2
      | .ok (v, s1) => .ok (.ret v s1)
    | .print expr =>
      match evalExpr fuel s expr with
      | .error e2 => .error e2
      | .ok (v, s1) =>
        match printIsString s1 expr with
        | .error e2 => .error e2
        | .ok true =>
          match v with
          | none => .error typeErrorMsg
          | some addr =>
            .ok (.norm (logMsg s1
              ("[STRING OUTPUT] " ++ readString s1.memory addr fuel)))
        | .ok false =>
          .ok (.norm (logMsg s1 ("[INT OUTPUT] " ++ optValStr v)))
    | .debug => .ok (.norm (logMsg s ">>> Breakpoint <<<"))
    | .ifStmt condition true_body false_body =>
      match evalExpr fuel s condition with
      | .error e2 => .error e2
      | .ok (v, s1) =>
        if v ≠ some 0 then execStmts fuel s1 true_body
        else
          match false_body with
          | some fb => execStmts fuel s1 fb
          | none => .ok (.norm s1)
    | .callStmt name args =>
      match evalArgs fuel s args with
      | .error e2 => .error e2
      | .ok (vs, s1) =>
        match callFunction fuel s1 name vs with
        | .error e2 => .error e2
        | .ok (_, s2) => .ok (.norm s2)

/-- Sequential execution of a statement list, propagating a return
signal. -/
def execStmts : ℕ → State → List Stmt → Except String StmtOut
  | 0, _, _ => .error recursionMsg
  | _ + 1, s, [] => .ok (.norm s)
  | fuel + 1, s, stmt :: rest =>
    match execStmt fuel s stmt with
    | .error e2 => .error e2
    | .ok (.ret v s1) => .ok (.ret v s1)
    | .ok (.norm s1) => execStmts fuel s1 rest

end

/-! ### Phase 1 and the program driver -/

mutual

/-- `_find_and_store_string_literals_recursive` on an expression node:
the string literals reachable in it, in attribute order. -/
def stringLitsE : Expr → List String
  | .num _ => []
  | .str v => [v]
  | .var _ => []
  | .binop l _ r => stringLitsE l ++ stringLitsE r
  | .unop _ operand => stringLitsE operand
  | .call _ args => stringLitsEs args

def stringLitsEs : List Expr → List String
  | [] => []
  | e :: es => stringLitsE e ++ stringLitsEs es

end

mutual

/-- `_find_and_store_string_literals_recursive` on a statement node. -/
def stringLitsS : Stmt → List String
  | .varDecl _ _ => []
  | .assign target expr => stringLitsE target ++ stringLitsE expr
  | .ret expr => stringLitsE expr
  | .print expr => stringLitsE expr
  | .debug => []
  | .ifStmt condition true_body false_body =>
    stringLitsE condition ++ stringLitsSs true_body ++
      (match false_body with
       | some fb => stringLitsSs fb
       | none => [])
  | .callStmt _ args => stringLitsEs args

def stringLitsSs : List Stmt → List String
  | [] => []
  | stmt :: rest => stringLitsS stmt ++ stringLitsSs rest

end

/-- Interning of the literals found by the recursive walk, in order. -/
def storeLits : State → List String → Except String State
  | s, [] => .ok s
  | s, t :: ts =>
    match storeStringLiteral s t with
    | .error e => .error e
    | .ok (_, s1) => storeLits s1 ts

/-- `_static_analysis_and_allocation`: register each function and intern the
literals in its body; allocate each top-level variable declaration as a
global. -/
def staticAnalysis : State → List TopLevel → Except String State
  | s, [] => .ok s
  | s, .funcDef fd :: rest =>
    match storeLits { s with functions := (fd.name, fd) :: s.functions }
        (stringLitsSs fd.body) with
    | .error e => .error e
    | .ok s1 => staticAnalysis s1 rest
  | s, .varDecl var_type name :: rest =>
    match declareVariable s name var_type true with
    | .error e => .error e
    | .ok s1 => staticAnalysis s1 rest

/-- `visit_ProgramNode`: run phase 1, then execute `main` if it exists.  In
the source, `call_function` itself catches the `ReturnSignal` raised by a
`return` in `main`'s body and converts it into an ordinary return value, so
the `except ReturnSignal` handler in `visit_ProgramNode` — the one that
would log the "returned value ignored" warning — can never fire; the model
therefore has no warning path, and `main`'s value is discarded silently. -/
def interpProgram (fuel : ℕ) (prog : List TopLevel) : Except String State :=
  match staticAnalysis initState prog with
  | .error e => .error e
  | .ok s1 =>
    match lookupA s1.functions "main" with
    | some _ =>
      match callFunction fuel (logMsg s1 "--- Executing main ---") "main" [] with
      | .error e => .error e
      | .ok (_, s3) => .ok (logMsg s3 "--- Finished ---")
    | none => .ok (logMsg s1 "Error: main関数がありません")

/-! ### Claim C4 -/

/-- The program `void main() { return 5; }`. -/
def progC4 : List TopLevel := [.funcDef ⟨"void", "main", [], [.ret (.num 5)]⟩]

/-- C9 witness: concrete zero-parameter functions with empty bodies, one
returning `int` (call yields 0) and one `void` (call yields no value). -/
def stateC9 : State :=
  { initState with functions :=
      [("f", ⟨"int", "f", [], []⟩), ("g", ⟨"void", "g", [], []⟩)] }

/-- Concrete memory for the C10 witness: one 4-byte zeroed `char*` slot. -/
def memC10 : Memory :=
  ⟨fun x => if 1000 ≤ x ∧ x < 1004 then some 0 else none, 1004⟩

/-- Concrete state for the C10 witness: global `char *p;` default-zeroed. -/
def stateC10 : State :=
  { initState with memory := memC10
                   global_symtable := [("p", ⟨"char*", 1000⟩)] }

/-! ### Claim C3, amended part: the low-address invariant

`MemLowInv` states that no byte below address 1000 has ever been written
and the bump cursor is at or above 1000; it holds of the fresh memory and
is preserved by every memory primitive and every interpreter operation. -/

def MemLowInv (m : Memory) : Prop :=
  (∀ a : ℤ, a < 1000 → m.heap a = none) ∧ 1000 ≤ m.next_free_address

/-- The invariant on an interpreter state. -/
def LowInv (s : State) : Prop := MemLowInv s.memory

/-- The invariant on a statement outcome. -/
def LowInvOut : StmtOut → Prop
  | .norm s => LowInv s
  | .ret _ s => LowInv s

/-! ### Helper lemmas about the byte-level primitives -/

theorem emod_eq_mod (a b : ℤ) : a.emod b = a % b := rfl

/-- Disjoint bit ranges make `|||` an addition. -/
theorem lor_shiftLeft_eq_add {x : ℕ} (y : ℕ) {n : ℕ} (h : x < 2 ^ n) :
    x ||| (y <<< n) = x + y * 2 ^ n := by
  rw [Nat.shiftLeft_eq, Nat.lor_comm, Nat.mul_comm y (2 ^ n),
    ← Nat.mul_add_lt_is_or h y]
  omega

theorem intByte_lt (value : ℤ) (i : ℕ) : intByte value i < 256 := by
  unfold intByte
  simp only [emod_eq_mod]
  omega

theorem intByte_cast (value : ℤ) (i : ℕ) :
    ((intByte value i : ℕ) : ℤ) = (value.fdiv (2 ^ (i * 8))).emod 256 := by
  unfold intByte
  simp only [emod_eq_mod]
  omega

/-- Unrolling of the 4-byte write loop. -/
theorem writeIntBytes_eq (h : ℤ → Option ℕ) (a : ℤ) (v : ℤ) :
    writeIntBytes h a v =
      heapStore (heapStore (heapStore (heapStore h (a + 0) (intByte v 0))
        (a + 1) (intByte v 1)) (a + 2) (intByte v 2)) (a + 3) (intByte v 3) :=
  rfl

/-- Unrolling of the 4-byte read loop. -/
theorem readIntBytes_eq (m : Memory) (a : ℤ) :
    readIntBytes m a =
      ((((0 ||| (heapGetD m (a + 0)) <<< 0) ||| (heapGetD m (a + 1)) <<< 8)
        ||| (heapGetD m (a + 2)) <<< 16) ||| (heapGetD m (a + 3)) <<< 24) :=
  rfl

theorem heapStore_same (h : ℤ → Option ℕ) (a : ℤ) (b : ℕ) :
    heapStore h a b a = some b := by
  simp [heapStore]

theorem heapStore_other (h : ℤ → Option ℕ) (a : ℤ) (b : ℕ) {x : ℤ}
    (hx : x ≠ a) : heapStore h a b x = h x := by
  simp [heapStore, hx]

/-- The heap produced by `set_int_value` holds the little-endian bytes. -/
theorem writeIntBytes_read (h : ℤ → Option ℕ) (a : ℤ) (v : ℤ) (i : ℕ)
    (hi : i < 4) : writeIntBytes h a v (a + (i : ℤ)) = some (intByte v i) := by
  rw [writeIntBytes_eq]
  interval_cases i <;>
    simp [heapStore, show (a + 0 ≠ a + 3 ∧ a + 0 ≠ a + 2 ∧ a + 0 ≠ a + 1
      ∧ a + 1 ≠ a + 3 ∧ a + 1 ≠ a + 2 ∧ a + 2 ≠ a + 3) from by omega]

/-- Reassembling the 4 bytes of `v` yields `v` reduced modulo `2 ^ 32`. -/
theorem intBytes_recombine (v : ℤ) :
    intByte v 0 + intByte v 1 * 256 + intByte v 2 * 65536
      + intByte v 3 * 16777216 = ((v.emod (2 ^ 32)).toNat) := by
  have h0 := intByte_cast v 0
  have h1 := intByte_cast v 1
  have h2 := intByte_cast v 2
  have h3 := intByte_cast v 3
  rw [Int.fdiv_eq_ediv v (by norm_num : (0:ℤ) ≤ 2 ^ (0 * 8))] at h0
  rw [Int.fdiv_eq_ediv v (by norm_num : (0:ℤ) ≤ 2 ^ (1 * 8))] at h1
  rw [Int.fdiv_eq_ediv v (by norm_num : (0:ℤ) ≤ 2 ^ (2 * 8))] at h2
  rw [Int.fdiv_eq_ediv v (by norm_num : (0:ℤ) ≤ 2 ^ (3 * 8))] at h3
  simp only [emod_eq_mod] at h0 h1 h2 h3 ⊢
  norm_num at h0 h1 h2 h3
  omega

/-! ### Claim C1 -/

/-- C1, counterexample.  The claim says the write/read round trip returns the
original value "including for negative values"; writing `-1` at address 1000
and reading it back yields the unsigned value `4294967295`, not `-1`. -/
theorem c1_negative_roundtrip_counterexample :
    (set_int_value initMemory 1000 (some (-1))).bind
        (fun m2 => get_int_value m2 1000) = .ok 4294967295
      ∧ ((4294967295 : ℕ) : ℤ) ≠ (-1 : ℤ) := by
  constructor
  · decide
  · decide

/-- C1, amended: for every address `a ≥ 1000` (in particular every allocated
address) and every integer `v`, `write_int(a, v)` followed by `read_int(a)`
returns `v` reduced modulo `2 ^ 32` — the little-endian encoding decodes to
the unsigned 32-bit value, which equals `v` exactly when `0 ≤ v < 2 ^ 32`,
and not for negative `v`. -/
theorem c1_int_roundtrip_mod32 (m : Memory) (a : ℤ) (v : ℤ)
    (ha : ¬ a < 1000) :
    (set_int_value m a (some v)).bind (fun m2 => get_int_value m2 a)
        = .ok ((v.emod (2 ^ 32)).toNat)
      ∧ ((((v.emod (2 ^ 32)).toNat : ℕ) : ℤ) = v ↔ 0 ≤ v ∧ v < 2 ^ 32) := by
  constructor
  · rw [set_int_value, if_neg ha]
    show get_int_value { m with heap := writeIntBytes m.heap a v } a = _
    have hb0 := writeIntBytes_read m.heap a v 0 (by omega)
    have hb1 := writeIntBytes_read m.heap a v 1 (by omega)
    have hb2 := writeIntBytes_read m.heap a v 2 (by omega)
    have hb3 := writeIntBytes_read m.heap a v 3 (by omega)
    norm_num at hb0 hb1 hb2 hb3
    rw [get_int_value]
    rw [show ({ m with heap := writeIntBytes m.heap a v } : Memory).heap a
        = some (intByte v 0) from hb0]
    simp only [Option.isNone_some, Bool.false_eq_true, if_false]
    rw [readIntBytes_eq]
    show Except.ok ((((0 ||| (heapGetD _ (a + 0)) <<< 0)
        ||| (heapGetD _ (a + 1)) <<< 8) ||| (heapGetD _ (a + 2)) <<< 16)
        ||| (heapGetD _ (a + 3)) <<< 24) = _
    have g0 : heapGetD { m with heap := writeIntBytes m.heap a v } (a + 0)
        = intByte v 0 := by rw [heapGetD]; norm_num at hb0 ⊢; rw [hb0]; rfl
    have g1 : heapGetD { m with heap := writeIntBytes m.heap a v } (a + 1)
        = intByte v 1 := by rw [heapGetD]; show (writeIntBytes m.heap a v (a + 1)).getD 0 = _; rw [hb1]; rfl
    have g2 : heapGetD { m with heap := writeIntBytes m.heap a v } (a + 2)
        = intByte v 2 := by rw [heapGetD]; show (writeIntBytes m.heap a v (a + 2)).getD 0 = _; rw [hb2]; rfl
    have g3 : heapGetD { m with heap := writeIntBytes m.heap a v } (a + 3)
        = intByte v 3 := by rw [heapGetD]; show (writeIntBytes m.heap a v (a + 3)).getD 0 = _; rw [hb3]; rfl
    rw [g0, g1, g2, g3]
    have l0 : intByte v 0 <<< 0 = intByte v 0 := by simp
    have e1 : (0 ||| intByte v 0) = intByte v 0 := by simp
    rw [l0, e1]
    rw [lor_shiftLeft_eq_add (intByte v 1) (intByte_lt v 0)]
    rw [lor_shiftLeft_eq_add (intByte v 2)
      (show intByte v 0 + intByte v 1 * 2 ^ 8 < 2 ^ 16 from by
        have := intByte_lt v 0; have := intByte_lt v 1; norm_num; omega)]
    rw [lor_shiftLeft_eq_add (intByte v 3)
      (show intByte v 0 + intByte v 1 * 2 ^ 8 + intByte v 2 * 2 ^ 16 < 2 ^ 24
        from by
        have := intByte_lt v 0; have := intByte_lt v 1
        have := intByte_lt v 2; norm_num; omega)]
    have := intBytes_recombine v
    norm_num at this ⊢
    omega
  · simp only [emod_eq_mod]
    constructor
    · intro h
      omega
    · intro h
      omega

/-- C1 witness: a concrete successful application of the amended round trip
at address 1000 with value 7. -/
theorem c1_int_roundtrip_mod32_witness :
    ¬ (1000 : ℤ) < 1000
      ∧ (set_int_value initMemory 1000 (some 7)).bind
          (fun m2 => get_int_value m2 1000) = .ok 7 := by
  refine ⟨by decide, ?_⟩
  have h := (c1_int_roundtrip_mod32 initMemory 1000 7 (by decide)).1
  rw [show (((7 : ℤ).emod (2 ^ 32)).toNat) = 7 from by decide] at h
  exact h

/-- C2, counterexample.  Bytes 1001–1003 were never written, yet
`read_int(1000)` succeeds (returning 5) instead of raising: the source only
checks membership of the first byte and defaults the rest to 0. -/
theorem c2_unwritten_tail_counterexample :
    memC2.heap 1001 = none ∧ memC2.heap 1002 = none ∧ memC2.heap 1003 = none
      ∧ get_int_value memC2 1000 = .ok 5 := by
  refine ⟨by decide, by decide, by decide, by decide⟩

/-- C2, amended: `read_int(a)` raises the invalid/uninitialized-access error
exactly when the byte at `a` itself was never written; the three following
bytes are read leniently, an unwritten one counting as 0. -/
theorem c2_read_checks_first_byte_only (m : Memory) (a : ℤ) :
    (m.heap a = none → get_int_value m a = .error (invalidAccessMsg a))
      ∧ (∀ b : ℕ, m.heap a = some b → m.heap (a + 1) = none →
          m.heap (a + 2) = none → m.heap (a + 3) = none →
          get_int_value m a = .ok b) := by
  constructor
  · intro h
    rw [get_int_value, h]
    rfl
  · intro b hb h1 h2 h3
    rw [get_int_value, hb]
    simp only [Option.isNone_some, Bool.false_eq_true, if_false]
    rw [readIntBytes_eq]
    have g0 : heapGetD m (a + 0) = b := by
      rw [heapGetD, show a + 0 = a from by omega, hb]; rfl
    have g1 : heapGetD m (a + 1) = 0 := by rw [heapGetD, h1]; rfl
    have g2 : heapGetD m (a + 2) = 0 := by rw [heapGetD, h2]; rfl
    have g3 : heapGetD m (a + 3) = 0 := by rw [heapGetD, h3]; rfl
    rw [g0, g1, g2, g3]
    simp

/-- C2 witness: the amended behavior at concrete inputs — a fully unwritten
address errors, and `memC2` (first byte written, tail unwritten) reads 5. -/
theorem c2_read_checks_first_byte_only_witness :
    get_int_value initMemory 1000 = .error (invalidAccessMsg 1000)
      ∧ get_int_value memC2 1000 = .ok 5 :=
  ⟨(c2_read_checks_first_byte_only initMemory 1000).1 rfl,
   (c2_read_checks_first_byte_only memC2 1000).2 5 (by decide) (by decide)
     (by decide) (by decide)⟩

/-! ### Helper lemmas about allocation and the phase-1 operations -/

theorem allocate_fst (m : Memory) (n : ℕ) :
    (allocate m n).1 = m.next_free_address := rfl

theorem allocate_nfa (m : Memory) (n : ℕ) :
    (allocate m n).2.next_free_address
      = m.next_free_address + (n : ℤ) := rfl

theorem lookupA_cons {α : Type} (k : String) (v : α)
    (rest : List (String × α)) (key : String) :
    lookupA ((k, v) :: rest) key
      = if k = key then some v else lookupA rest key := rfl

theorem set_byte_value_ok {m : Memory} {a : ℤ} {b : ℕ} (ha : ¬ a < 1000)
    (hb : b ≤ 255) :
    set_byte_value m a b = .ok { m with heap := heapStore m.heap a b } := by
  rw [set_byte_value, if_neg ha, if_neg (by omega)]

/-- The character loop succeeds on Latin-1 characters and does not move the
allocation cursor. -/
theorem writeChars_ok : ∀ (cs : List Char) (m : Memory) (addr : ℤ),
    (∀ c ∈ cs, c.toNat ≤ 255) → 1000 ≤ addr →
    ∃ m2, writeChars m addr cs = .ok m2
      ∧ m2.next_free_address = m.next_free_address
  | [], m, addr, _, _ => ⟨m, rfl, rfl⟩
  | c :: cs, m, addr, hc, ha => by
      have hb : c.toNat ≤ 255 := hc c (List.mem_cons_self c cs)
      obtain ⟨m2, hw, hnfa⟩ := writeChars_ok cs
        { m with heap := heapStore m.heap addr c.toNat } (addr + 1)
        (fun d hd => hc d (List.mem_cons_of_mem c hd)) (by omega)
      refine ⟨m2, ?_, hnfa⟩
      rw [writeChars, set_byte_value_ok (by omega) hb]
      exact hw

/-- Storing a fresh literal allocates it at the cursor and records it in the
pool; the cursor advances by `length + 1`. -/
theorem storeStringLiteral_fresh (s : State) (t : String)
    (hfresh : lookupA s.string_literals t = none)
    (hc : ∀ c ∈ t.data, c.toNat ≤ 255)
    (h1000 : 1000 ≤ s.memory.next_free_address) :
    ∃ m3 : Memory,
      storeStringLiteral s t
        = .ok (s.memory.next_free_address,
            { s with memory := m3
                     string_literals :=
                       (t, s.memory.next_free_address) :: s.string_literals })
        ∧ m3.next_free_address
            = s.memory.next_free_address + ((t.length + 1 : ℕ) : ℤ) := by
  obtain ⟨m2, hw, hnfa2⟩ := writeChars_ok t.data
    (allocate s.memory (t.length + 1)).2 s.memory.next_free_address hc h1000
  have hnfa2' : m2.next_free_address
      = s.memory.next_free_address + ((t.length + 1 : ℕ) : ℤ) := by
    rw [hnfa2, allocate_nfa]
  refine ⟨{ m2 with heap := heapStore m2.heap (s.memory.next_free_address + ((t.length + 1 : ℕ) : ℤ) - 1) 0 }, ?_, by show m2.next_free_address = _; exact hnfa2'⟩
  unfold storeStringLiteral
  simp only [hfresh, allocate_fst, hw,
    set_byte_value_ok (show ¬ s.memory.next_free_address + ((t.length + 1 : ℕ) : ℤ) - 1 < 1000 from by omega) (show (0 : ℕ) ≤ 255 from by omega)]

/-! ### Claim C5 -/

/-- C5: string-literal interning.  Storing a fresh literal `t` allocates it;
storing the same text again returns the same address and leaves the state
unchanged (allocated exactly once); a distinct text `u` then receives the
next bump address, whose byte range `[a2, a2 + len u + 1)` cannot overlap
`t`'s range `[a1, a1 + len t + 1)`. -/
theorem c5_string_literal_interning (s : State) (t u : String)
    (ht : ∀ c ∈ t.data, c.toNat ≤ 255) (hu : ∀ c ∈ u.data, c.toNat ≤ 255)
    (h1000 : 1000 ≤ s.memory.next_free_address)
    (hft : lookupA s.string_literals t = none)
    (hfu : lookupA s.string_literals u = none)
    (hne : t ≠ u) :
    (storeStringLiteral s t).isOk = true
      ∧ ∀ a1 s1, storeStringLiteral s t = .ok (a1, s1) →
          storeStringLiteral s1 t = .ok (a1, s1)
          ∧ (storeStringLiteral s1 u).isOk = true
          ∧ ∀ a2 s2, storeStringLiteral s1 u = .ok (a2, s2) →
              a2 = a1 + ((t.length + 1 : ℕ) : ℤ)
              ∧ ∀ x : ℤ, a1 ≤ x → x < a1 + ((t.length + 1 : ℕ) : ℤ) →
                  ¬ (a2 ≤ x ∧ x < a2 + ((u.length + 1 : ℕ) : ℤ)) := by
  obtain ⟨m3, hstore, hnfa⟩ := storeStringLiteral_fresh s t hft ht h1000
  refine ⟨by rw [hstore]; rfl, ?_⟩
  intro a1 s1 h1
  rw [hstore] at h1
  simp only [Except.ok.injEq, Prod.mk.injEq] at h1
  obtain ⟨ha1, hs1⟩ := h1
  subst ha1
  subst hs1
  have hlook2 : lookupA ((t, s.memory.next_free_address) :: s.string_literals)
      t = some s.memory.next_free_address := by
    rw [lookupA_cons, if_pos rfl]
  have hlooku : lookupA ((t, s.memory.next_free_address) :: s.string_literals)
      u = none := by
    rw [lookupA_cons, if_neg hne, hfu]
  have hfresh2 := storeStringLiteral_fresh
    { s with memory := m3
             string_literals := (t, s.memory.next_free_address) :: s.string_literals }
    u hlooku hu (by show 1000 ≤ m3.next_free_address; omega)
  obtain ⟨m4, hstore2, _⟩ := hfresh2
  refine ⟨by rw [storeStringLiteral]; rw [hlook2], ?_, ?_⟩
  · rw [hstore2]
    rfl
  · intro a2 s2 h2
    rw [hstore2] at h2
    simp only [Except.ok.injEq, Prod.mk.injEq] at h2
    obtain ⟨ha2, _⟩ := h2
    have ha2' : a2 = m3.next_free_address := ha2.symm
    constructor
    · omega
    · intro x hx1 hx2 hcontra
      omega

/-- C5 witness: interning the default program's two literals from the
initial state succeeds. -/
theorem c5_string_literal_interning_witness :
    (storeStringLiteral initState "Hello World!").isOk = true :=
  (c5_string_literal_interning initState "Hello World!" "Test" (by decide)
    (by decide) (by decide) rfl rfl (by decide)).1

theorem getSizeByType_valid (t : String) (h : validGlobalType t) :
    getSizeByType t = .ok (declSize t) := by
  rcases h with h | h | h
  · subst h; decide
  · subst h; decide
  · rw [getSizeByType, if_pos h, declSize, if_pos h]; rfl

theorem declSize_pos (t : String) : 1 ≤ declSize t := by
  rw [declSize]
  split
  · omega
  · split <;> omega

theorem set_int_value_ok {m : Memory} {a : ℤ} (ha : ¬ a < 1000) (v : ℤ) :
    set_int_value m a (some v)
      = .ok { m with heap := writeIntBytes m.heap a v } := by
  rw [set_int_value, if_neg ha]

/-- A global declaration of a type of known size binds the symbol at the
cursor and advances the cursor by the size. -/
theorem declareVariableSym_global_ok (s : State) (name t : String) {n : ℕ}
    (hsz : getSizeByType t = .ok n)
    (h1000 : 1000 ≤ s.memory.next_free_address) :
    ∃ m2 : Memory,
      declareVariableSym s name t true
        = .ok (⟨t, s.memory.next_free_address⟩,
            { s with memory := m2
                     global_symtable := (name, ⟨t, s.memory.next_free_address⟩)
                       :: s.global_symtable })
        ∧ m2.next_free_address = s.memory.next_free_address + (n : ℤ) := by
  refine ⟨{ (allocate s.memory n).2 with
      heap := writeIntBytes (allocate s.memory n).2.heap s.memory.next_free_address 0 }, ?_,
    by show (allocate s.memory n).2.next_free_address = _; rw [allocate_nfa]⟩
  unfold declareVariableSym
  simp only [hsz, allocate_fst,
    set_int_value_ok (show ¬ s.memory.next_free_address < 1000 from by omega) 0]
  rfl

theorem addrLayout_length (szs : List ℕ) (base : ℤ) :
    (addrLayout base szs).length = szs.length := by
  induction szs generalizing base with
  | nil => rfl
  | cons sz rest ih => simp [addrLayout, ih]

theorem addrLayout_get : ∀ (szs : List ℕ) (base : ℤ) (i : ℕ)
    (h : i < (addrLayout base szs).length),
    (addrLayout base szs).get ⟨i, h⟩
      = base + (((szs.take i).sum : ℕ) : ℤ)
  | [], base, i, h => by simp [addrLayout] at h
  | sz :: rest, base, 0, h => by simp [addrLayout]
  | sz :: rest, base, i + 1, h => by
      have := addrLayout_get rest (base + (sz : ℤ)) i (by
        simp only [addrLayout, List.length_cons] at h
        omega)
      simp only [addrLayout, List.get_cons_succ, this, List.take_succ_cons,
        List.sum_cons]
      push_cast
      ring

theorem sum_take_mono (l : List ℕ) {i j : ℕ} (h : i ≤ j) :
    (l.take i).sum ≤ (l.take j).sum := by
  calc (l.take i).sum = ((l.take j).take i).sum := by
        rw [List.take_take, Nat.min_eq_left h]
    _ ≤ ((l.take j).take i).sum + ((l.take j).drop i).sum := Nat.le_add_right _ _
    _ = (l.take j).sum := by rw [← List.sum_append, List.take_append_drop]

/-- Running a list of global declarations of declarable types: every one
succeeds, the symbols record the declared types, the addresses follow the
bump layout, and the cursor ends past all of them. -/
theorem declareGlobals_layout : ∀ (ds : List (String × String)) (s : State),
    (∀ d ∈ ds, validGlobalType d.1) → 1000 ≤ s.memory.next_free_address →
    ∃ syms s2, declareGlobals s ds = .ok (syms, s2)
      ∧ syms.map VarSymbol.address
          = addrLayout s.memory.next_free_address (ds.map fun d => declSize d.1)
      ∧ syms.map VarSymbol.type = ds.map Prod.fst
      ∧ s2.memory.next_free_address
          = s.memory.next_free_address + ((((ds.map fun d => declSize d.1).sum : ℕ)) : ℤ)
  | [], s, _, _ => ⟨[], s, rfl, rfl, rfl, by simp⟩
  | (t, nm) :: rest, s, hv, h1000 => by
      have hval : validGlobalType t := hv (t, nm) (List.mem_cons_self _ _)
      obtain ⟨m2, hdecl, hnfa⟩ := declareVariableSym_global_ok s nm t
        (getSizeByType_valid t hval) h1000
      obtain ⟨syms, s2, hrest, hmap, htypes, hnfa2⟩ := declareGlobals_layout rest
        { s with memory := m2
                 global_symtable := (nm, ⟨t, s.memory.next_free_address⟩)
                   :: s.global_symtable }
        (fun d hd => hv d (List.mem_cons_of_mem _ hd))
        (by show 1000 ≤ m2.next_free_address; omega)
      refine ⟨⟨t, s.memory.next_free_address⟩ :: syms, s2, ?_, ?_, ?_, ?_⟩
      · show declareGlobals s ((t, nm) :: rest) = _
        rw [declareGlobals, hdecl]
        simp only [hrest]
      · simp only [List.map_cons, addrLayout, hmap]
        show _ :: addrLayout m2.next_free_address _ = _ :: addrLayout _ _
        rw [hnfa]
      · simp only [List.map_cons, htypes]
      · show s2.memory.next_free_address = _
        rw [hnfa2]
        show m2.next_free_address + _ = _
        rw [hnfa]
        simp only [List.map_cons, List.sum_cons]
        push_cast
        ring

theorem list_map_get_eq {α β : Type} (f : α → β) (l : List α) (r : List β)
    (h : l.map f = r) (i : ℕ) (hi : i < l.length) (hr : i < r.length) :
    f (l.get ⟨i, hi⟩) = r.get ⟨i, hr⟩ := by
  subst h
  simp [List.get_map]

/-- C7: a sequence of global declarations of `int`, `char`, or pointer
types assigns strictly increasing, never-overlapping addresses; each
symbol's allocation size is the source size of its declared type
(`int` → 4, `char` → 1, pointer → 4), each address is the base cursor plus
the sizes of the previous declarations, and a declaration directly after an
`int` lands exactly 4 bytes higher. -/
theorem c7_global_declaration_layout (s : State) (ds : List (String × String))
    (hv : ∀ d ∈ ds, validGlobalType d.1)
    (h1000 : 1000 ≤ s.memory.next_free_address) :
    (getSizeByType "int" = .ok 4 ∧ getSizeByType "char" = .ok 1
      ∧ (∀ t : String, strEndsWith t "*" = true → getSizeByType t = .ok 4))
    ∧ (declareGlobals s ds).isOk = true
    ∧ ∀ syms s2, declareGlobals s ds = .ok (syms, s2) →
        syms.length = ds.length
        ∧ (∀ i : ℕ, ∀ hs : i < syms.length, ∀ hd : i < ds.length,
            (syms.get ⟨i, hs⟩).address
              = s.memory.next_free_address
                + ((((ds.take i).map fun d => declSize d.1).sum : ℕ) : ℤ)
            ∧ (syms.get ⟨i, hs⟩).type = (ds.get ⟨i, hd⟩).1)
        ∧ (∀ i j : ℕ, ∀ hi : i < syms.length, ∀ hj : j < syms.length,
            ∀ hdi : i < ds.length, i < j →
            (syms.get ⟨i, hi⟩).address + ((declSize (ds.get ⟨i, hdi⟩).1 : ℕ) : ℤ)
                ≤ (syms.get ⟨j, hj⟩).address
            ∧ (syms.get ⟨i, hi⟩).address < (syms.get ⟨j, hj⟩).address)
        ∧ (∀ i : ℕ, ∀ hi : i < syms.length, ∀ hi1 : i + 1 < syms.length,
            ∀ hdi : i < ds.length, (ds.get ⟨i, hdi⟩).1 = "int" →
            (syms.get ⟨i + 1, hi1⟩).address = (syms.get ⟨i, hi⟩).address + 4) := by
  obtain ⟨SY, S2, heq, hmap, htyp, _⟩ := declareGlobals_layout ds s hv h1000
  refine ⟨⟨by decide, by decide, fun t ht => by rw [getSizeByType, if_pos ht]; rfl⟩,
    by rw [heq]; rfl, ?_⟩
  intro syms s2 h
  rw [heq] at h
  simp only [Except.ok.injEq, Prod.mk.injEq] at h
  obtain ⟨h1, h2⟩ := h
  subst h1
  subst h2
  have hlen : SY.length = ds.length := by
    have hl := congrArg List.length hmap
    simp only [List.length_map, addrLayout_length] at hl
    exact hl
  have haddr : ∀ i : ℕ, ∀ hs : i < SY.length,
      (SY.get ⟨i, hs⟩).address
        = s.memory.next_free_address
          + ((((ds.take i).map fun d => declSize d.1).sum : ℕ) : ℤ) := by
    intro i hs
    have hb : i < (addrLayout s.memory.next_free_address
        (ds.map fun d => declSize d.1)).length := by
      rw [addrLayout_length, List.length_map]
      omega
    have h3 := list_map_get_eq VarSymbol.address SY _ hmap i hs hb
    rw [h3, addrLayout_get]
    rw [← List.map_take]
  have htype : ∀ i : ℕ, ∀ hs : i < SY.length, ∀ hd : i < ds.length,
      (SY.get ⟨i, hs⟩).type = (ds.get ⟨i, hd⟩).1 := by
    intro i hs hd
    have hb : i < (ds.map Prod.fst).length := by
      rw [List.length_map]
      omega
    have h3 := list_map_get_eq VarSymbol.type SY _ htyp i hs hb
    rw [h3, List.get_map]
  have hstep : ∀ i : ℕ, ∀ hdi : i < ds.length,
      ((ds.take (i + 1)).map fun d => declSize d.1).sum
        = ((ds.take i).map fun d => declSize d.1).sum
          + declSize (ds.get ⟨i, hdi⟩).1 := by
    intro i hdi
    rw [List.map_take, List.map_take, List.sum_take_succ _ i
      (by rw [List.length_map]; omega)]
    congr 1
    simp [List.getElem_map]
  refine ⟨hlen, fun i hs hd => ⟨haddr i hs, htype i hs hd⟩, ?_, ?_⟩
  · intro i j hi hj hdi hij
    have hai := haddr i hi
    have haj := haddr j hj
    have hmono : ((ds.take (i + 1)).map fun d => declSize d.1).sum
        ≤ ((ds.take j).map fun d => declSize d.1).sum := by
      rw [List.map_take, List.map_take]
      exact sum_take_mono _ (by omega)
    have hst := hstep i hdi
    have hpos := declSize_pos (ds.get ⟨i, hdi⟩).1
    constructor
    · rw [hai, haj]
      omega
    · rw [hai, haj]
      omega
  · intro i hi hi1 hdi hint
    have hai := haddr i hi
    have hai1 := haddr (i + 1) hi1
    have hst := hstep i hdi
    rw [hint] at hst
    have h4 : declSize "int" = 4 := by decide
    rw [h4] at hst
    rw [hai, hai1]
    omega

/-- C7 witness: four concrete global declarations from the initial state
(`int a; int b; char c; char* p;`) all succeed. -/
theorem c7_global_declaration_layout_witness :
    (declareGlobals initState
      [("int", "a"), ("int", "b"), ("char", "c"), ("char*", "p")]).isOk
      = true :=
  (c7_global_declaration_layout initState
    [("int", "a"), ("int", "b"), ("char", "c"), ("char*", "p")]
    (by decide) (by decide)).2.1

/-- C3, counterexample.  Declaring `char c;` allocates exactly one byte
(addresses `[1000, 1001)`), but `_declare_variable` then zeroes the slot
with a 4-byte `set_int_value` write, so bytes 1001–1003 — never allocated
to any symbol or literal — are written: the write does not stay within the
variable's own allocation. -/
theorem c3_char_decl_counterexample :
    (declareVariable initState "c" "char" true).isOk = true
      ∧ c3State.memory.next_free_address = 1001
      ∧ (c3State.memory.heap 1001).isSome = true
      ∧ (c3State.memory.heap 1002).isSome = true
      ∧ (c3State.memory.heap 1003).isSome = true
      ∧ ¬ allocWithin c3State := by
  refine ⟨by decide, by decide, by decide, by decide, by decide, ?_⟩
  intro h
  have h2 := h 1003 (by decide)
  have h3 : c3State.memory.next_free_address = 1001 := by decide
  omega

/-- C4: `main` executes `return 5;`, the call yields the value 5 — and the
run's entire output is the two framing lines, with no warning logged about
an ignored return value, because `call_function` catches the return signal
before `visit_ProgramNode`'s warning handler can see it.  (The value is
also not propagated anywhere, matching the claim's second half.) -/
theorem c4_main_return_warning_never_logged :
    (interpProgram 9 progC4).map State.output
        = .ok ["--- Executing main ---\n", "--- Finished ---\n"]
      ∧ ((staticAnalysis initState progC4).bind fun s1 =>
          (callFunction 9 (logMsg s1 "--- Executing main ---") "main" []).map
            Prod.fst) = .ok (some 5) := by
  constructor
  · decide
  · decide

/-! ### Claim C8 -/

/-- C8: `*(&x)` evaluates exactly like `x` — same value, same state, and
the same error when `x` is unbound or uninitialized.  (`&` does not consume
a recursion step for its operand, hence the fuel offset.) -/
theorem c8_deref_addr_of_eq_var (fuel : ℕ) (s : State) (x : String) :
    evalExpr (fuel + 2) s (.unop .star (.unop .amp (.var x)))
      = evalExpr (fuel + 1) s (.var x) := by
  cases h : lookupSymbol s x with
  | none => simp [evalExpr, h]
  | some sym =>
    simp [evalExpr, h]

/-! ### Claim C9 -/

/-- C9: a call whose body completes without executing `return` pops the
frame it pushed and yields `0` unless the declared return type is `void`,
in which case it yields no value (`None`). -/
theorem c9_implicit_return_value (fuel : ℕ) (s : State) (name : String)
    (fd : FuncDef) (arg_values : List (Option ℤ))
    (frame : List (String × VarSymbol)) (s1 s2 : State)
    (hfd : lookupA s.functions name = some fd)
    (harity : arg_values.length = fd.params.length)
    (hbind : bindParams s [] fd.params arg_values = .ok (frame, s1))
    (hexec : execStmts fuel { s1 with call_stack := frame :: s1.call_stack }
        fd.body = .ok (.norm s2)) :
    callFunction (fuel + 1) s name arg_values
      = .ok (if fd.return_type = "void" then none else some 0,
          { s2 with call_stack := s2.call_stack.tail }) := by
  simp only [callFunction, hfd, hbind, hexec, if_neg (show ¬ arg_values.length
    ≠ fd.params.length from by omega)]

theorem c9_implicit_return_value_witness :
    callFunction 2 stateC9 "f" []
        = .ok (some 0, { stateC9 with call_stack := [] })
      ∧ callFunction 2 stateC9 "g" []
        = .ok (none, { stateC9 with call_stack := [] }) := by
  constructor
  · exact c9_implicit_return_value 1 stateC9 "f" ⟨"int", "f", [], []⟩ [] []
      stateC9 { stateC9 with call_stack := [] :: stateC9.call_stack }
      rfl rfl rfl rfl
  · exact c9_implicit_return_value 1 stateC9 "g" ⟨"void", "g", [], []⟩ [] []
      stateC9 { stateC9 with call_stack := [] :: stateC9.call_stack }
      rfl rfl rfl rfl

/-! ### Claim C10 -/

/-- C10: printing a variable whose declared type starts with `char*` but
whose stored value is an address below 1000 logs a `[STRING OUTPUT]` line
carrying the invalid-address diagnostic and that address, and execution
continues normally (the statement completes with `.norm`, no error). -/
theorem c10_print_invalid_string_address (fuel : ℕ) (s : State)
    (x ty : String) (a : ℤ) (n : ℕ)
    (hsym : lookupSymbol s x = some ⟨ty, a⟩)
    (hty : strStartsWith ty "char*" = true)
    (hget : get_int_value s.memory a = .ok n)
    (hlow : (n : ℤ) < 1000) :
    execStmt (fuel + 2) s (.print (.var x))
      = .ok (.norm (logMsg s ("[STRING OUTPUT] "
          ++ ("Error: Invalid string address " ++ toString (n : ℤ))))) := by
  simp only [execStmt, evalExpr, hsym, hget, printIsString, hty,
    readString, if_pos hlow]

theorem c10_print_invalid_string_address_witness :
    execStmt 2 stateC10 (.print (.var "p"))
      = .ok (.norm { stateC10 with output :=
          ["[STRING OUTPUT] Error: Invalid string address 0\n"] }) := by
  have h := c10_print_invalid_string_address 0 stateC10 "p" "char*" 1000 0
    (by decide) (by decide) (by decide) (by decide)
  exact h

theorem rangeFoldStore_low (f : ℕ → ℕ) : ∀ (n : ℕ) (h : ℤ → Option ℕ)
    (base : ℤ) (a : ℤ), a < base →
    ((List.range n).foldl (fun hh i => heapStore hh (base + ((i : ℕ) : ℤ)) (f i)) h) a
      = h a
  | 0, h, base, a, ha => rfl
  | n + 1, h, base, a, ha => by
      rw [List.range_succ, List.foldl_append]
      show heapStore _ (base + ((n : ℕ) : ℤ)) (f n) a = h a
      rw [heapStore_other _ _ _ (show a ≠ base + ((n : ℕ) : ℤ) from by
        have : (0 : ℤ) ≤ ((n : ℕ) : ℤ) := Int.natCast_nonneg n
        omega)]
      exact rangeFoldStore_low f n h base a ha

theorem allocate_heap_low (m : Memory) (n : ℕ) {a : ℤ}
    (ha : a < m.next_free_address) : (allocate m n).2.heap a = m.heap a :=
  rangeFoldStore_low (fun _ => 0) n m.heap m.next_free_address a ha

theorem allocate_low {m : Memory} (n : ℕ) (h : MemLowInv m) :
    MemLowInv (allocate m n).2 := by
  obtain ⟨hlow, hnfa⟩ := h
  refine ⟨fun a ha => ?_, ?_⟩
  · rw [allocate_heap_low m n (by omega)]
    exact hlow a ha
  · show 1000 ≤ m.next_free_address + ((n : ℕ) : ℤ)
    have : (0 : ℤ) ≤ ((n : ℕ) : ℤ) := Int.natCast_nonneg n
    omega

theorem writeIntBytes_low (h : ℤ → Option ℕ) (addr : ℤ) (v : ℤ) {a : ℤ}
    (ha : a < addr) : writeIntBytes h addr v a = h a := by
  rw [writeIntBytes_eq,
    heapStore_other _ _ _ (show a ≠ addr + 3 from by omega),
    heapStore_other _ _ _ (show a ≠ addr + 2 from by omega),
    heapStore_other _ _ _ (show a ≠ addr + 1 from by omega),
    heapStore_other _ _ _ (show a ≠ addr + 0 from by omega)]

theorem set_int_value_low {m m2 : Memory} {addr : ℤ} {v : Option ℤ}
    (h : set_int_value m addr v = .ok m2) (hm : MemLowInv m) :
    MemLowInv m2 := by
  rw [set_int_value.eq_def] at h
  split at h
  · exact absurd h (by simp)
  · split at h
    · exact absurd h (by simp)
    · next w =>
      simp only [Except.ok.injEq] at h
      subst h
      obtain ⟨hlow, hnfa⟩ := hm
      refine ⟨fun a ha => ?_, hnfa⟩
      show writeIntBytes m.heap addr w a = none
      rw [writeIntBytes_low m.heap addr w (by omega)]
      exact hlow a ha

theorem set_byte_value_low {m m2 : Memory} {addr : ℤ} {b : ℕ}
    (h : set_byte_value m addr b = .ok m2) (hm : MemLowInv m) :
    MemLowInv m2 := by
  rw [set_byte_value] at h
  split at h
  · exact absurd h (by simp)
  · split at h
    · exact absurd h (by simp)
    · simp only [Except.ok.injEq] at h
      subst h
      obtain ⟨hlow, hnfa⟩ := hm
      refine ⟨fun a ha => ?_, hnfa⟩
      show heapStore m.heap addr b a = none
      rw [heapStore_other _ _ _ (show a ≠ addr from by omega)]
      exact hlow a ha

theorem writeChars_low : ∀ {cs : List Char} {m m2 : Memory} {addr : ℤ},
    writeChars m addr cs = .ok m2 → MemLowInv m → MemLowInv m2 := by
  intro cs
  induction cs with
  | nil =>
    intro m m2 addr h hm
    simp only [writeChars, Except.ok.injEq] at h
    subst h
    exact hm
  | cons c rest ih =>
    intro m m2 addr h hm
    rw [writeChars] at h
    split at h
    · exact absurd h (by simp)
    · next m1 heq => exact ih h (set_byte_value_low heq hm)

theorem storeStringLiteral_low {s : State} {t : String} {r : ℤ × State}
    (h : storeStringLiteral s t = .ok r) (hs : LowInv s) : LowInv r.2 := by
  rw [storeStringLiteral.eq_def] at h
  split at h
  · simp only [Except.ok.injEq] at h
    subst h
    exact hs
  · simp only [] at h
    split at h
    · exact absurd h (by simp)
    · next m2 heq =>
      split at h
      · exact absurd h (by simp)
      · next m3 heq3 =>
        simp only [Except.ok.injEq] at h
        subst h
        exact set_byte_value_low heq3 (writeChars_low heq (allocate_low _ hs))

theorem declareVariableSym_low {s : State} {name var_type : String}
    {g : Bool} {r : VarSymbol × State}
    (h : declareVariableSym s name var_type g = .ok r) (hs : LowInv s) :
    LowInv r.2 := by
  rw [declareVariableSym.eq_def] at h
  split at h
  · exact absurd h (by simp)
  · simp only [] at h
    cases g with
    | true =>
      rw [if_pos rfl] at h
      simp only [] at h
      split at h
      · exact absurd h (by simp)
      · next m2 heq =>
        simp only [Except.ok.injEq] at h
        subst h
        exact set_int_value_low heq (allocate_low _ hs)
    | false =>
      rw [if_neg (by decide)] at h
      cases hcs : s.call_stack with
      | nil =>
        rw [hcs] at h
        exact absurd h (by simp)
      | cons fr rest =>
        rw [hcs] at h
        simp only [] at h
        split at h
        · exact absurd h (by simp)
        · next m2 heq =>
          simp only [Except.ok.injEq] at h
          subst h
          exact set_int_value_low heq (allocate_low _ hs)

theorem declareVariable_low {s : State} {name var_type : String} {g : Bool}
    {s1 : State} (h : declareVariable s name var_type g = .ok s1)
    (hs : LowInv s) : LowInv s1 := by
  rw [declareVariable] at h
  cases heq : declareVariableSym s name var_type g with
  | error e => rw [heq] at h; exact absurd h (by simp [Except.map])
  | ok p =>
    rw [heq] at h
    simp only [Except.map, Except.ok.injEq] at h
    subst h
    exact declareVariableSym_low heq hs

theorem storeLits_low : ∀ {ts : List String} {s s1 : State},
    storeLits s ts = .ok s1 → LowInv s → LowInv s1 := by
  intro ts
  induction ts with
  | nil =>
    intro s s1 h hs
    simp only [storeLits, Except.ok.injEq] at h
    subst h
    exact hs
  | cons t rest ih =>
    intro s s1 h hs
    rw [storeLits] at h
    split at h
    · exact absurd h (by simp)
    · next p heq => exact ih h (storeStringLiteral_low heq hs)

theorem staticAnalysis_low : ∀ {prog : List TopLevel} {s s1 : State},
    staticAnalysis s prog = .ok s1 → LowInv s → LowInv s1 := by
  intro prog
  induction prog with
  | nil =>
    intro s s1 h hs
    simp only [staticAnalysis, Except.ok.injEq] at h
    subst h
    exact hs
  | cons node rest ih =>
    intro s s1 h hs
    match node with
    | .funcDef fd =>
      rw [staticAnalysis] at h
      split at h
      · exact absurd h (by simp)
      · next sm heq => exact ih h (storeLits_low heq hs)
    | .varDecl var_type name =>
      rw [staticAnalysis] at h
      split at h
      · exact absurd h (by simp)
      · next sm heq => exact ih h (declareVariable_low heq hs)

theorem bindParams_low : ∀ {ps : List String} {args : List (Option ℤ)}
    {s : State} {frame : List (String × VarSymbol)}
    {r : List (String × VarSymbol) × State},
    bindParams s frame ps args = .ok r → LowInv s → LowInv r.2 := by
  intro ps
  induction ps with
  | nil =>
    intro args s frame r h hs
    simp only [bindParams, Except.ok.injEq] at h
    subst h
    exact hs
  | cons p rest ih =>
    intro args s frame r h hs
    match args with
    | [] =>
      simp only [bindParams, Except.ok.injEq] at h
      subst h
      exact hs
    | a :: args' =>
      rw [bindParams] at h
      split at h
      · exact absurd h (by simp)
      · next m2 heq =>
        exact ih h (show MemLowInv m2 from
          set_int_value_low heq (allocate_low _ hs))

/-- Preservation of the low-address invariant by every evaluator entry
point, by induction on the fuel. -/
theorem evalLow : ∀ fuel : ℕ,
    (∀ s e r, LowInv s → evalExpr fuel s e = .ok r → LowInv r.2)
    ∧ (∀ s es r, LowInv s → evalArgs fuel s es = .ok r → LowInv r.2)
    ∧ (∀ s name vs r, LowInv s → callFunction fuel s name vs = .ok r →
        LowInv r.2)
    ∧ (∀ s stmt o, LowInv s → execStmt fuel s stmt = .ok o → LowInvOut o)
    ∧ (∀ s stmts o, LowInv s → execStmts fuel s stmts = .ok o →
        LowInvOut o) := by
  intro fuel
  induction fuel with
  | zero =>
    exact ⟨fun s e r _ h => absurd h (by simp [evalExpr]),
      fun s es r _ h => absurd h (by simp [evalArgs]),
      fun s n vs r _ h => absurd h (by simp [callFunction]),
      fun s st o _ h => absurd h (by simp [execStmt]),
      fun s sts o _ h => absurd h (by simp [execStmts])⟩
  | succ fuel ih =>
    obtain ⟨ihE, ihA, ihC, ihS, ihSS⟩ := ih
    refine ⟨?_, ?_, ?_, ?_, ?_⟩
    · -- evalExpr
      intro s e r hs h
      match e with
      | .num v =>
        simp only [evalExpr, Except.ok.injEq] at h
        subst h
        exact hs
      | .str t =>
        simp only [evalExpr] at h
        split at h
        · simp only [Except.ok.injEq] at h
          subst h
          exact hs
        · exact absurd h (by simp)
      | .var name =>
        simp only [evalExpr] at h
        split at h
        · exact absurd h (by simp)
        · split at h
          · exact absurd h (by simp)
          · simp only [Except.ok.injEq] at h
            subst h
            exact hs
      | .binop l op rgt =>
        simp only [evalExpr] at h
        split at h
        · exact absurd h (by simp)
        · next lv s1 heql =>
          split at h
          · exact absurd h (by simp)
          · next rv s2 heqr =>
            split at h
            · exact absurd h (by simp)
            · next v heqv =>
              simp only [Except.ok.injEq] at h
              subst h
              exact ihE s1 rgt (rv, s2) (ihE s l (lv, s1) hs heql) heqr
      | .unop .amp operand =>
        simp only [evalExpr] at h
        split at h
        · next name =>
          split at h
          · exact absurd h (by simp)
          · simp only [Except.ok.injEq] at h
            subst h
            exact hs
        · exact absurd h (by simp)
      | .unop .star operand =>
        simp only [evalExpr] at h
        split at h
        · exact absurd h (by simp)
        · exact absurd h (by simp)
        · next addr s1 heq =>
          split at h
          · exact absurd h (by simp)
          · simp only [Except.ok.injEq] at h
            subst h
            exact ihE s operand (some addr, s1) hs heq
      | .call name args =>
        simp only [evalExpr] at h
        split at h
        · exact absurd h (by simp)
        · next vs s1 heq =>
          exact ihC s1 name vs r (ihA s args (vs, s1) hs heq) h
    · -- evalArgs
      intro s es r hs h
      match es with
      | [] =>
        simp only [evalArgs, Except.ok.injEq] at h
        subst h
        exact hs
      | e :: rest =>
        simp only [evalArgs] at h
        split at h
        · exact absurd h (by simp)
        · next v s1 heq =>
          split at h
          · exact absurd h (by simp)
          · next vs s2 heq2 =>
            simp only [Except.ok.injEq] at h
            subst h
            exact ihA s1 rest (vs, s2) (ihE s e (v, s1) hs heq) heq2
    · -- callFunction
      intro s name vs r hs h
      simp only [callFunction] at h
      split at h
      · exact absurd h (by simp)
      · next fd hfd =>
        split at h
        · exact absurd h (by simp)
        · split at h
          · exact absurd h (by simp)
          · next frame s1 hbind =>
            split at h
            · exact absurd h (by simp)
            · next v s2 hexec =>
              simp only [Except.ok.injEq] at h
              subst h
              exact ihSS { s1 with call_stack := frame :: s1.call_stack }
                fd.body (.ret v s2) (bindParams_low hbind hs) hexec
            · next s2 hexec =>
              simp only [Except.ok.injEq] at h
              subst h
              exact ihSS { s1 with call_stack := frame :: s1.call_stack }
                fd.body (.norm s2) (bindParams_low hbind hs) hexec
    · -- execStmt
      intro s stmt o hs h
      match stmt with
      | .varDecl var_type name =>
        simp only [execStmt] at h
        split at h
        · exact absurd h (by simp)
        · next sym s1 heq =>
          simp only [Except.ok.injEq] at h
          subst h
          exact declareVariableSym_low heq hs
      | .assign target expr =>
        simp only [execStmt] at h
        split at h
        · exact absurd h (by simp)
        · next rv s1 heval =>
          have hs1 : LowInv s1 := ihE s expr (rv, s1) hs heval
          split at h
          · next name =>
            split at h
            · exact absurd h (by simp)
            · next sym =>
              split at h
              · exact absurd h (by simp)
              · next m2 hset =>
                simp only [Except.ok.injEq] at h
                subst h
                exact set_int_value_low hset hs1
          · next operand =>
            split at h
            · exact absurd h (by simp)
            · exact absurd h (by simp)
            · next addr s2 heval2 =>
              have hs2 : LowInv s2 := ihE s1 operand (some addr, s2) hs1 heval2
              split at h
              · exact absurd h (by simp)
              · next m2 hset =>
                simp only [Except.ok.injEq] at h
                subst h
                exact set_int_value_low hset hs2
          · exact absurd h (by simp)
      | .ret expr =>
        simp only [execStmt] at h
        split at h
        · exact absurd h (by simp)
        · next v s1 heval =>
          simp only [Except.ok.injEq] at h
          subst h
          exact ihE s expr (v, s1) hs heval
      | .print expr =>
        simp only [execStmt] at h
        split at h
        · exact absurd h (by simp)
        · next v s1 heval =>
          have hs1 : LowInv s1 := ihE s expr (v, s1) hs heval
          split at h
          · exact absurd h (by simp)
          · split at h
            · exact absurd h (by simp)
            · simp only [Except.ok.injEq] at h
              subst h
              exact hs1
          · simp only [Except.ok.injEq] at h
            subst h
            exact hs1
      | .debug =>
        simp only [execStmt, Except.ok.injEq] at h
        subst h
        exact hs
      | .ifStmt condition true_body false_body =>
        simp only [execStmt] at h
        split at h
        · exact absurd h (by simp)
        · next v s1 heval =>
          have hs1 : LowInv s1 := ihE s condition (v, s1) hs heval
          split at h
          · exact ihSS s1 true_body o hs1 h
          · split at h
            · exact ihSS s1 _ o hs1 h
            · simp only [Except.ok.injEq] at h
              subst h
              exact hs1
      | .callStmt name args =>
        simp only [execStmt] at h
        split at h
        · exact absurd h (by simp)
        · next vs s1 heq =>
          split at h
          · exact absurd h (by simp)
          · next v s2 hcall =>
            simp only [Except.ok.injEq] at h
            subst h
            exact ihC s1 name vs (v, s2) (ihA s args (vs, s1) hs heq) hcall
    · -- execStmts
      intro s stmts o hs h
      match stmts with
      | [] =>
        simp only [execStmts, Except.ok.injEq] at h
        subst h
        exact hs
      | stmt :: rest =>
        simp only [execStmts] at h
        split at h
        · exact absurd h (by simp)
        · next v s1 heq =>
          simp only [Except.ok.injEq] at h
          subst h
          exact ihS s stmt (.ret v s1) hs heq
        · next s1 heq =>
          exact ihSS s1 rest o (ihS s stmt (.norm s1) hs heq) h

/-- C3, amended: the first half of the claimed invariant holds — no byte at
an address below 1000 is ever written.  The fresh state satisfies the
invariant and every interpreter operation (variable declaration, literal
interning, the static-analysis phase, expression evaluation, function
calls, statement execution, and whole-program runs) preserves it.  The
second half of the claim (writes land only in allocated bytes) is false;
see the counterexample. -/
theorem c3_no_byte_below_1000_ever_written :
    LowInv initState
    ∧ (∀ s name var_type g s1, LowInv s →
        declareVariable s name var_type g = .ok s1 → LowInv s1)
    ∧ (∀ s t r, LowInv s → storeStringLiteral s t = .ok r → LowInv r.2)
    ∧ (∀ s prog s1, LowInv s → staticAnalysis s prog = .ok s1 → LowInv s1)
    ∧ (∀ fuel s e r, LowInv s → evalExpr fuel s e = .ok r → LowInv r.2)
    ∧ (∀ fuel s name vs r, LowInv s →
        callFunction fuel s name vs = .ok r → LowInv r.2)
    ∧ (∀ fuel s stmt o, LowInv s → execStmt fuel s stmt = .ok o → LowInvOut o)
    ∧ (∀ fuel s stmts o, LowInv s →
        execStmts fuel s stmts = .ok o → LowInvOut o)
    ∧ (∀ fuel prog s1, interpProgram fuel prog = .ok s1 → LowInv s1) := by
  refine ⟨⟨fun a ha => rfl, by decide⟩,
    fun s n t g s1 hs h => declareVariable_low h hs,
    fun s t r hs h => storeStringLiteral_low h hs,
    fun s p s1 hs h => staticAnalysis_low h hs,
    fun fuel s e r hs h => (evalLow fuel).1 s e r hs h,
    fun fuel s n vs r hs h => (evalLow fuel).2.2.1 s n vs r hs h,
    fun fuel s st o hs h => (evalLow fuel).2.2.2.1 s st o hs h,
    fun fuel s sts o hs h => (evalLow fuel).2.2.2.2 s sts o hs h,
    ?_⟩
  intro fuel prog s1 h
  rw [interpProgram] at h
  split at h
  · exact absurd h (by simp)
  · next s0 heq0 =>
    have hs0 : LowInv s0 := staticAnalysis_low heq0 ⟨fun a ha => rfl, by decide⟩
    split at h
    · split at h
      · exact absurd h (by simp)
      · next v s3 hcall =>
        simp only [Except.ok.injEq] at h
        subst h
        exact (evalLow fuel).2.2.1 (logMsg s0 "--- Executing main ---") "main"
          [] (v, s3) hs0 hcall
    · simp only [Except.ok.injEq] at h
      subst h
      exact hs0

/-- C3 witness: the invariant holds of the fresh state and is preserved
through the `char c;` declaration of the counterexample state. -/
theorem c3_no_byte_below_1000_ever_written_witness : LowInv c3State :=
  c3_no_byte_below_1000_ever_written.2.1 initState "c" "char" true c3State
    ⟨fun a ha => rfl, by decide⟩ (by rfl)
